import Mathlib

/-!
Verification development for the layered media-URL extraction service
(`server.py`).  The Python source is shallowly embedded: each strategy
function (`simple_http_extract`, `yt_dlp_extract`, `playwright_extract`,
`fallback_regex`) and the two endpoints (`extract`, `extract_stream_sse`)
become Lean functions over explicit inputs.  External collaborators
(the `requests` HTTP client, the BeautifulSoup parser, `urllib`'s
`urljoin`, the `yt-dlp` subprocess, the Playwright browser session) are
modelled as oracle parameters: the embedding covers exactly the
processing the Python code performs on their outputs.

Modelling conventions:
* Python `set` objects are modelled as insertion-ordered duplicate-free
  lists (`setAdd`).  CPython iterates a `set` in an unspecified,
  hash-dependent order; the insertion-ordered model keeps exactly the
  information the code controls (membership), and in particular the code
  performs no reordering of any kind when it converts a set to a list.
* `dict.fromkeys(xs)` based de-duplication is `pyDedup` (first
  occurrence kept, order preserved) - this one really is
  insertion-ordered in Python.
* Machine strings are Lean `String`s; the regular expressions of the
  source are embedded as an explicit backtracking matcher specialised to
  the two patterns the code uses.
-/

/-- Whitespace test used by Python's `str.strip` and the regex class
`\s` (ASCII part; the concrete inputs in this file are ASCII). -/
def pyIsSpace (c : Char) : Bool :=
  c = ' ' || c = '\t' || c = '\n' || c = '\r' || c = '\x0b' || c = '\x0c'

/-- Python `str.strip()`: drop leading and trailing whitespace. -/
def pyStrip (s : String) : String :=
  String.mk (((s.toList.dropWhile pyIsSpace).reverse.dropWhile pyIsSpace).reverse)

/-- Python `str.splitlines()` (ASCII line breaks: `\n`, `\r`, `\r\n`;
the concrete inputs in this file use `\n` only). -/
def pySplitlinesAux : List Char → List Char → List String
  | [], acc => if acc.isEmpty then [] else [String.mk acc.reverse]
  | '\r' :: '\n' :: rest, acc => String.mk acc.reverse :: pySplitlinesAux rest []
  | '\r' :: rest, acc => String.mk acc.reverse :: pySplitlinesAux rest []
  | '\n' :: rest, acc => String.mk acc.reverse :: pySplitlinesAux rest []
  | c :: rest, acc => pySplitlinesAux rest (c :: acc)

/-- Python `str.splitlines()` on a string. -/
def pySplitlines (s : String) : List String :=
  pySplitlinesAux s.toList []

/-- Order-preserving de-duplication, the model of Python's
`list(dict.fromkeys(xs))` idiom: keeps the first occurrence of every
string, in order. -/
def pyDedupAux (seen : List String) : List String → List String
  | [] => []
  | x :: xs => if x ∈ seen then pyDedupAux seen xs else x :: pyDedupAux (x :: seen) xs

/-- Model of `list(dict.fromkeys(xs))`. -/
def pyDedup (xs : List String) : List String :=
  pyDedupAux [] xs

/-- Adding one element to a Python `set`, modelled as an
insertion-ordered duplicate-free list (see the header comment). -/
def setAdd (s : List String) (x : String) : List String :=
  if x ∈ s then s else s ++ [x]

/-! ### The media-URL regular expressions

`server.py` uses two patterns (with `re.I`):
* line 47: `(https?://[^\s"\x27<>]+?\.(?:mp4|m3u8|m3u8\?))`
* line 371: `(https?://[^\s"\x27<>]+?\.(?:mp4|m3u8))`

They are embedded as an explicit matcher: the scheme part, a lazy body
of characters from the class `[^\s"\x27<>]`, then the extension
alternatives in the pattern's order.  `re.findall` semantics: scan left
to right, at each position attempt a match; on success emit the
(single, whole-pattern) group and resume after the match, otherwise
advance one character. -/

/-- Character class `[^\s"\x27<>]` of the URL body. -/
def isBodyChar (c : Char) : Bool :=
  !(pyIsSpace c || c = '"' || c = '\'' || c = '<' || c = '>')

/-- Case-insensitive literal match (`re.I`): the pattern `ps` is given
in lowercase; consumes `ps.length` characters.  Returns the consumed
characters (original casing) and the rest. -/
def matchCI : List Char → List Char → Option (List Char × List Char)
  | [], cs => some ([], cs)
  | _ :: _, [] => none
  | p :: ps, c :: cs =>
    if c.toLower = p then
      match matchCI ps cs with
      | some (m, r) => some (c :: m, r)
      | none => none
    else none

/-- Alternation: try the literal alternatives in order (Python's `|`
picks the leftmost alternative that matches). -/
def matchAlts : List (List Char) → List Char → Option (List Char × List Char)
  | [], _ => none
  | a :: rest, cs =>
    match matchCI a cs with
    | some x => some x
    | none => matchAlts rest cs

/-- The lazy tail `[^\s"\x27<>]+?` followed by the extension
alternatives: consume one body character at a time (at least one) and
after each, first try the extension (lazy `+?` prefers the shortest
body). -/
def matchTail (alts : List (List Char)) : List Char → Option (List Char × List Char)
  | [] => none
  | c :: cs =>
    if isBodyChar c then
      match matchAlts alts cs with
      | some (m, r) => some (c :: m, r)
      | none =>
        match matchTail alts cs with
        | some (m, r) => some (c :: m, r)
        | none => none
    else none

/-- The scheme part `https?://` (case-insensitive, greedy `s?` with
backtracking). -/
def matchScheme (cs : List Char) : Option (List Char × List Char) :=
  match matchCI ['h', 't', 't', 'p'] cs with
  | none => none
  | some (m1, r1) =>
    match r1 with
    | [] => none
    | c :: rest =>
      if c.toLower = 's' then
        match matchCI [':', '/', '/'] rest with
        | some (m2, r2) => some (m1 ++ c :: m2, r2)
        | none =>
          match matchCI [':', '/', '/'] r1 with
          | some (m2, r2) => some (m1 ++ m2, r2)
          | none => none
      else
        match matchCI [':', '/', '/'] r1 with
        | some (m2, r2) => some (m1 ++ m2, r2)
        | none => none

/-- One attempted match of the whole pattern at the current position. -/
def matchAt (alts : List (List Char)) (cs : List Char) : Option (List Char × List Char) :=
  match matchScheme cs with
  | none => none
  | some (m1, r1) =>
    match matchTail alts r1 with
    | some (m2, r2) => some (m1 ++ m2, r2)
    | none => none

/-- `re.findall` scan, fuelled for structural recursion.  Every step
consumes at least one character of the remaining text, so fuel equal to
the text length (supplied by `reFindall`) is never exhausted early. -/
def reFindallF (alts : List (List Char)) : Nat → List Char → List String
  | 0, _ => []
  | Nat.succ fuel, cs =>
    match matchAt alts cs with
    | some (m, r) => String.mk m :: reFindallF alts fuel r
    | none =>
      match cs with
      | [] => []
      | _ :: cs' => reFindallF alts fuel cs'

/-- Model of `re.findall(pattern, text, flags=re.I)` for the two URL
patterns of the source. -/
def reFindall (alts : List (List Char)) (cs : List Char) : List String :=
  reFindallF alts cs.length cs

/-- Extension alternatives of the line-47 pattern:
`(?:mp4|m3u8|m3u8\?)` (each preceded by the literal dot). -/
def basicAlts : List (List Char) :=
  [['.', 'm', 'p', '4'], ['.', 'm', '3', 'u', '8'], ['.', 'm', '3', 'u', '8', '?']]

/-- Extension alternatives of the line-371 pattern: `(?:mp4|m3u8)`. -/
def fallbackAlts : List (List Char) :=
  [['.', 'm', 'p', '4'], ['.', 'm', '3', 'u', '8']]

/-! ### Static Page Scanner: `simple_http_extract` (lines 41-63)

The `requests.get` call is abstracted as a `fetch` oracle.  `requests`
raises on timeouts and connection errors (`FetchResult.exc`, caught by
the function's `except` clause) but does NOT raise on a non-2xx status:
it returns a response whose `.text` is the error page's body
(`FetchResult.ok status body`; the code never looks at the status).
BeautifulSoup is abstracted as a `parse` oracle producing the `<video>`
elements (their own `src` attribute and the `src` attributes of their
descendant `<source>` elements, document order) and the `content`
attribute of the first `meta property="og:video"` element, if any.
`requests.compat.urljoin` is the oracle `uj`. -/

/-- Outcome of a `requests.get` call. -/
inductive FetchResult where
  | exc
  | ok (status : Nat) (body : String)
deriving DecidableEq, Repr

/-- One `<video>` element as BeautifulSoup reports it: the `src`
attributes of its descendant `<source>` elements (in document order,
`none` when the attribute is absent) and its own `src` attribute. -/
structure VideoEl where
  sources : List (Option String)
  src : Option String
deriving DecidableEq, Repr

/-- The slice of the parsed document `simple_http_extract` reads. -/
structure Dom where
  videos : List VideoEl
  ogVideo : Option String
deriving DecidableEq, Repr

/-- The `src` attribute values the nested loops of lines 50-56 visit,
flattened in loop order, with Python truthiness (`if src:`) applied:
for each video, its `<source>` elements' `src` values, then the video's
own `src`. -/
def srcValues (d : Dom) : List String :=
  d.videos.flatMap (fun v =>
    (v.sources.filterMap (fun s =>
      match s with
      | some t => if t ≠ "" then some t else none
      | none => none))
    ++ (match v.src with
        | some t => if t ≠ "" then [t] else []
        | none => []))

/-- The `og:video` addition of lines 58-60 (`if og and og.get("content")`):
note the content is added verbatim, with no `urljoin`. -/
def ogValues (d : Dom) : List String :=
  match d.ogVideo with
  | some c => if c ≠ "" then [c] else []
  | none => []

/-- All strings the DOM pass of lines 50-60 adds to the `links` set, in
insertion order: the resolved `src` attributes, then the raw `og:video`
content. -/
def domAdds (uj : String → String → String) (url : String) (d : Dom) : List String :=
  (srcValues d).map (uj url) ++ ogValues d

/-- Embedding of `simple_http_extract` (lines 41-63): on any exception
from the fetch, return `[]`; otherwise build the set of regex matches
over the body, add the DOM-derived URLs, and return the set as a list. -/
def simple_http_extract (fetch : String → FetchResult) (parse : String → Dom)
    (uj : String → String → String) (url : String) : List String :=
  match fetch url with
  | FetchResult.exc => []
  | FetchResult.ok _ body =>
    List.foldl setAdd (List.foldl setAdd [] (reFindall basicAlts body.toList))
      (domAdds uj url (parse body))

/-! ### Metadata Delegate Adapter: `yt_dlp_extract` (lines 65-93)

The two `subprocess.run` invocations are oracles.  The `-g` branch
returns the stripped non-blank stdout lines; the `-j` branch parses the
first stdout line as JSON (abstracted to the fields the code reads:
the top-level `url` and each entry of `formats`' `url`). -/

/-- Outcome of the first `subprocess.run` (`yt-dlp -g`); `exc` is a
raised exception (e.g. timeout), which the outer `except` turns into
`[]` without trying the `-j` branch. -/
inductive ProcOutcome where
  | exc
  | ok (rc : Int) (stdout : String)
deriving DecidableEq, Repr

/-- The fields of the parsed `-j` JSON object the code reads:
`j["url"]` if the key is present, and for each element of
`j["formats"]` its `url` value if that key is present (`none` =
key absent; `formats = none` = no `formats` key). -/
structure YtJson where
  url : Option String
  formats : Option (List (Option String))
deriving DecidableEq, Repr

/-- Outcome of the `-j` fallback branch (lines 77-91). -/
inductive JBranch where
  | exc
  | noOutput
  | parseError
  | parsed (j : YtJson)
deriving DecidableEq, Repr

/-- Embedding of `yt_dlp_extract` (lines 65-93).  Note the `-g` branch
(lines 72-75) returns the stdout lines as-is: despite the comment
`# remove duplicates & relative` in the source, no de-duplication is
applied there; only the `-j` branch de-duplicates
(`list(dict.fromkeys(...))`, line 88). -/
def yt_dlp_extract (hasYt : Bool) (g : ProcOutcome) (jb : JBranch) : List String :=
  if !hasYt then []
  else
    match g with
    | ProcOutcome.exc => []
    | ProcOutcome.ok rc out =>
      if rc = 0 ∧ pyStrip out ≠ "" then
        ((pySplitlines out).map pyStrip).filter (fun l => l ≠ "")
      else
        match jb with
        | JBranch.exc => []
        | JBranch.noOutput => []
        | JBranch.parseError => []
        | JBranch.parsed j =>
          let links :=
            (match j.url with
             | some u => if u ≠ "" then [u] else []
             | none => [])
            ++ (match j.formats with
                | some fs => fs.filterMap id
                | none => [])
          pyDedup (links.filter (fun l => l ≠ ""))

/-! ### Browser Capture Engine: `playwright_extract` (lines 98-367)

The whole browser session (lines 107-355) only populates the set
`collected`; it is abstracted as an observation-ordered list parameter
(Python `set`, see the header comment on ordering).  The embedding
covers the normalisation the function then performs (lines 357-367):
skip falsy entries, `urljoin` each against the target URL (the
per-entry `except` fallback cannot fire in the pure model), and
de-duplicate with `dict.fromkeys`. -/

/-- Embedding of `playwright_extract`'s output normalisation: `[]` when
Playwright is unavailable (line 104), otherwise the de-duplicated
`urljoin`-normalised collection. -/
def playwright_extract (hasPw : Bool) (uj : String → String → String)
    (url : String) (collected : List String) : List String :=
  if !hasPw then []
  else pyDedup ((collected.filter (fun u => u ≠ "")).map (uj url))

/-! ### Fallback regex: `fallback_regex` (lines 370-372) -/

/-- Embedding of `fallback_regex` (lines 370-372).  The `base_url`
parameter is accepted but never used, exactly as in the source. -/
def fallback_regex (html : String) (base_url : String) : List String :=
  pyDedup (reFindall fallbackAlts html.toList)

/-! ### The orchestrator: `extract` (lines 383-425) and
`extract_stream_sse` (lines 427-506)

All oracle inputs of one run are bundled in `Oracles`.  `fetch` is used
both by the static scanner (line 45) and by the fallback step
(line 416); using one oracle for both encodes the determinism
assumption of claim C10 (a deterministic network).  The response is the
JSON object `{"method": ..., "links": ..., "attempts": {...}}`; the
`attempts` dict has exactly the four keys of line 390, in insertion
order, each holding a bare URL list (the code records no error notes).
`tried` additionally records which strategies the control flow actually
invoked, in order. -/

/-- The oracle inputs of one extraction run. -/
structure Oracles where
  hasYt : Bool
  hasPw : Bool
  fetch : String → FetchResult
  parse : String → Dom
  uj : String → String → String
  gProc : ProcOutcome
  jBranch : JBranch
  pwCollected : List String

/-- The JSON object both endpoints return on success: `method`,
`links`, and the `attempts` dict of line 390 (four keys, each a bare
URL list - the code has no error-note field). -/
structure ExtractionResult where
  method : String
  links : List String
  attempts_basic : List String
  attempts_yt_dlp : List String
  attempts_playwright : List String
  attempts_fallback_regex : List String
deriving DecidableEq, Repr

/-- An extraction run: the returned result plus the trace of strategy
names the control flow actually invoked, in invocation order. -/
structure ExtractRun where
  result : ExtractionResult
  tried : List String
deriving DecidableEq, Repr

/-- The static scan step as `extract` invokes it (line 393). -/
def basicLinks (o : Oracles) (url : String) : List String :=
  simple_http_extract o.fetch o.parse o.uj url

/-- The metadata-delegate step as `extract` invokes it (line 399). -/
def ytLinks (o : Oracles) : List String :=
  yt_dlp_extract o.hasYt o.gProc o.jBranch

/-- The browser-capture step as `extract` invokes it (line 407; the
surrounding `try` cannot fire in the pure model). -/
def pwLinks (o : Oracles) (url : String) : List String :=
  playwright_extract o.hasPw o.uj url o.pwCollected

/-- The fallback step of lines 415-419: re-fetch the page and run the
fallback regex; any fetch exception yields `[]`. -/
def fallLinks (o : Oracles) (url : String) : List String :=
  match o.fetch url with
  | FetchResult.exc => []
  | FetchResult.ok _ body => fallback_regex body url

/-- Embedding of the body of `extract` (lines 390-425), after URL
validation: run the four strategies in order, stop at the first
non-empty result; `attempts` entries of strategies never reached stay
`[]` (their line-390 initial value). -/
def extract_core (o : Oracles) (url : String) : ExtractRun :=
  if basicLinks o url ≠ [] then
    ⟨⟨"basic", basicLinks o url, basicLinks o url, [], [], []⟩, ["basic"]⟩
  else if ytLinks o ≠ [] then
    ⟨⟨"yt_dlp", ytLinks o, basicLinks o url, ytLinks o, [], []⟩, ["basic", "yt_dlp"]⟩
  else if pwLinks o url ≠ [] then
    ⟨⟨"playwright", pwLinks o url, basicLinks o url, ytLinks o, pwLinks o url, []⟩,
     ["basic", "yt_dlp", "playwright"]⟩
  else if fallLinks o url ≠ [] then
    ⟨⟨"fallback_regex", fallLinks o url, basicLinks o url, ytLinks o, pwLinks o url,
      fallLinks o url⟩,
     ["basic", "yt_dlp", "playwright", "fallback_regex"]⟩
  else
    ⟨⟨"none", [], basicLinks o url, ytLinks o, pwLinks o url, fallLinks o url⟩,
     ["basic", "yt_dlp", "playwright", "fallback_regex"]⟩

/-- The request body of `POST /extract` as the code reads it: only
`data.get("url")` is ever accessed; any `exhaustive` member of the JSON
body is carried here to state that fact, but the code never reads it. -/
structure ExtractRequest where
  url : Option String
  exhaustive : Bool
deriving DecidableEq, Repr

/-- Response of the `extract` endpoint: the 400 error for a missing or
empty URL (line 387, Python truthiness), or the result object. -/
inductive ExtractResponse where
  | badRequest
  | ok (r : ExtractionResult)
deriving DecidableEq, Repr

/-- Embedding of the `extract` endpoint (lines 383-425) including the
URL validation of lines 386-388. -/
def extract_endpoint (o : Oracles) (req : ExtractRequest) : ExtractResponse :=
  match req.url with
  | none => ExtractResponse.badRequest
  | some u => if u = "" then ExtractResponse.badRequest else ExtractResponse.ok (extract_core o u).result

/-- The metadata-delegate step as the SSE generator invokes it (lines
452-467): skipped entirely when `HAS_YTDLP` is false, in which case its
`attempts` entry keeps the initial `[]` of line 436. -/
def sseYt (o : Oracles) : List String :=
  if o.hasYt then ytLinks o else []

/-- The browser-capture step as the SSE generator invokes it (lines
470-485): skipped entirely when `HAS_PLAYWRIGHT` is false. -/
def ssePw (o : Oracles) (url : String) : List String :=
  if o.hasPw then pwLinks o url else []

/-- Embedding of the terminal `done` event's `result` object of
`extract_stream_sse` (lines 435-504).  Unlike `extract`, the SSE
generator checks `HAS_YTDLP` / `HAS_PLAYWRIGHT` before invoking those
strategies (`sseYt`, `ssePw`). -/
def extract_sse_result (o : Oracles) (url : String) : ExtractionResult :=
  if basicLinks o url ≠ [] then
    ⟨"basic", basicLinks o url, basicLinks o url, [], [], []⟩
  else if sseYt o ≠ [] then
    ⟨"yt_dlp", sseYt o, basicLinks o url, sseYt o, [], []⟩
  else if ssePw o url ≠ [] then
    ⟨"playwright", ssePw o url, basicLinks o url, sseYt o, ssePw o url, []⟩
  else if fallLinks o url ≠ [] then
    ⟨"fallback_regex", fallLinks o url, basicLinks o url, sseYt o, ssePw o url,
     fallLinks o url⟩
  else
    ⟨"none", [], basicLinks o url, sseYt o, ssePw o url, fallLinks o url⟩

/-! ### Concrete oracle instances used by witnesses and counterexamples

`ujTest` is a test instance of the `urljoin` collaborator: it returns
absolute inputs unchanged (as `urljoin` does) and resolves root-relative
paths against the base URL's scheme and host - sufficient for the
concrete pages appearing below. -/

/-- Characters of a URL up to the end of the authority: keeps the first
`n + ...` ... keeps everything up to (excluding) the slash after the
`n`-th retained slash; `schemeHost cs 2` maps
`https://host/p` to `https://host`. -/
def schemeHost : List Char → Nat → List Char
  | [], _ => []
  | c :: cs, n =>
    if c = '/' then
      if n = 0 then [] else c :: schemeHost cs (n - 1)
    else c :: schemeHost cs n

/-- Test instance of the `urljoin` collaborator. -/
def ujTest (base rel : String) : String :=
  if rel = "" then base
  else if ("http://".toList.isPrefixOf rel.toList) || ("https://".toList.isPrefixOf rel.toList) then rel
  else if rel.toList.head? = some '/' then String.mk (schemeHost base.toList 2) ++ rel
  else base ++ rel

/-- Page body of the C5 scenario: one `<source>` element with a
root-relative `src`, and one absolute `.mp4` URL visible to the raw
regex pass. -/
def bodyC5 : String :=
  "<video><source src=\"/dom.mp4\"></video> https://cdn.example.com/reg.mp4"

/-- Fetch oracle of the C5 scenario: every URL resolves to `bodyC5`. -/
def fetchC5 : String → FetchResult :=
  fun _ => FetchResult.ok 200 bodyC5

/-- Parser oracle of the C5 scenario: one `<video>` with one `<source
src="/dom.mp4">`, no `og:video` meta. -/
def parseC5 : String → Dom :=
  fun _ => ⟨[⟨[some "/dom.mp4"], none⟩], none⟩

/-- Page body of the C6 scenario: no media URL in the raw HTML. -/
def bodyC6 : String :=
  "<html>player page</html>"

/-- Fetch oracle of the C6 scenario. -/
def fetchC6 : String → FetchResult :=
  fun _ => FetchResult.ok 200 bodyC6

/-- Parser oracle of the C6 scenario: no `<video>` elements, one
`meta property="og:video"` whose `content` is root-relative. -/
def parseC6 : String → Dom :=
  fun _ => ⟨[], some "/og-video.mp4"⟩

/-- Oracles of the C8 scenario: the static scan finds one URL in the
page body and the browser session would collect one distinct URL. -/
def oE : Oracles where
  hasYt := false
  hasPw := true
  fetch := fun _ => FetchResult.ok 200 "https://cdn.example.com/a.mp4"
  parse := fun _ => ⟨[], none⟩
  uj := ujTest
  gProc := ProcOutcome.exc
  jBranch := JBranch.exc
  pwCollected := ["https://cdn.example.com/b.m3u8"]

/-- Oracles of the C9 scenario: the target is unreachable (every fetch
raises), the delegate and the browser are unavailable. -/
def oD : Oracles where
  hasYt := false
  hasPw := false
  fetch := fun _ => FetchResult.exc
  parse := fun _ => ⟨[], none⟩
  uj := ujTest
  gProc := ProcOutcome.exc
  jBranch := JBranch.exc
  pwCollected := []

/-! ### Lemmas about the matcher -/

theorem matchCI_spec : ∀ (ps cs m r : List Char),
    matchCI ps cs = some (m, r) → cs = m ++ r ∧ m.map Char.toLower = ps := by
  intro ps
  induction ps with
  | nil =>
    intro cs m r h
    simp only [matchCI, Option.some.injEq, Prod.mk.injEq] at h
    obtain ⟨h1, h2⟩ := h
    subst h1; subst h2
    exact ⟨rfl, rfl⟩
  | cons p ps ih =>
    intro cs m r h
    cases cs with
    | nil => simp [matchCI] at h
    | cons c cs' =>
      simp only [matchCI] at h
      by_cases hc : c.toLower = p
      · rw [if_pos hc] at h
        cases hm : matchCI ps cs' with
        | none => rw [hm] at h; exact absurd h (by simp)
        | some x =>
          obtain ⟨m0, r0⟩ := x
          rw [hm] at h
          simp only [Option.some.injEq, Prod.mk.injEq] at h
          obtain ⟨h1, h2⟩ := h
          subst h2
          obtain ⟨he, hl⟩ := ih cs' m0 r0 hm
          subst h1
          constructor
          · simp [he]
          · simp [hl, hc]
      · rw [if_neg hc] at h
        exact absurd h (by simp)

theorem matchAlts_spec : ∀ (alts : List (List Char)) (cs m r : List Char),
    matchAlts alts cs = some (m, r) →
    cs = m ++ r ∧ ∃ a ∈ alts, m.map Char.toLower = a := by
  intro alts
  induction alts with
  | nil => intro cs m r h; simp [matchAlts] at h
  | cons a rest ih =>
    intro cs m r h
    simp only [matchAlts] at h
    cases hm : matchCI a cs with
    | some x =>
      obtain ⟨m0, r0⟩ := x
      rw [hm] at h
      simp only [Option.some.injEq] at h
      obtain ⟨he, hl⟩ := matchCI_spec a cs m0 r0 hm
      cases h
      exact ⟨he, a, List.mem_cons_self a rest, hl⟩
    | none =>
      rw [hm] at h
      obtain ⟨he, a', ha', hl⟩ := ih cs m r h
      exact ⟨he, a', List.mem_cons_of_mem a ha', hl⟩

theorem matchTail_spec : ∀ (alts : List (List Char)) (cs m r : List Char),
    matchTail alts cs = some (m, r) →
    cs = m ++ r ∧ m ≠ [] ∧ ∃ a ∈ alts, a <:+ m.map Char.toLower := by
  intro alts cs
  induction cs with
  | nil => intro m r h; simp [matchTail] at h
  | cons c cs' ih =>
    intro m r h
    simp only [matchTail] at h
    by_cases hb : isBodyChar c = true
    · rw [if_pos hb] at h
      cases ha : matchAlts alts cs' with
      | some x =>
        obtain ⟨m0, r0⟩ := x
        rw [ha] at h
        simp only [Option.some.injEq, Prod.mk.injEq] at h
        obtain ⟨h1, h2⟩ := h
        subst h2
        obtain ⟨he, a, hmem, hl⟩ := matchAlts_spec alts cs' m0 r0 ha
        subst h1
        refine ⟨by simp [he], by simp, a, hmem, ?_⟩
        rw [List.map_cons, ← hl]
        exact List.suffix_cons _ _
      | none =>
        rw [ha] at h
        cases ht : matchTail alts cs' with
        | some x =>
          obtain ⟨m0, r0⟩ := x
          rw [ht] at h
          simp only [Option.some.injEq, Prod.mk.injEq] at h
          obtain ⟨h1, h2⟩ := h
          subst h2
          obtain ⟨he, hne, a, hmem, hl⟩ := ih m0 r0 ht
          subst h1
          refine ⟨by simp [he], by simp, a, hmem, ?_⟩
          rw [List.map_cons]
          exact hl.trans (List.suffix_cons _ _)
        | none => rw [ht] at h; exact absurd h (by simp)
    · rw [if_neg hb] at h
      exact absurd h (by simp)

theorem matchScheme_spec : ∀ (cs m r : List Char),
    matchScheme cs = some (m, r) →
    cs = m ++ r ∧
      (m.map Char.toLower = ['h', 't', 't', 'p', ':', '/', '/'] ∨
       m.map Char.toLower = ['h', 't', 't', 'p', 's', ':', '/', '/']) := by
  intro cs m r h
  simp only [matchScheme] at h
  cases h1 : matchCI ['h', 't', 't', 'p'] cs with
  | none => rw [h1] at h; exact absurd h (by simp)
  | some x1 =>
    obtain ⟨m1, r1⟩ := x1
    rw [h1] at h
    obtain ⟨he1, hl1⟩ := matchCI_spec _ cs m1 r1 h1
    cases r1 with
    | nil => exact absurd h (by simp)
    | cons c rest =>
      simp only at h
      by_cases hs : c.toLower = 's'
      · rw [if_pos hs] at h
        cases h2 : matchCI [':', '/', '/'] rest with
        | some x2 =>
          obtain ⟨m2, r2⟩ := x2
          rw [h2] at h
          simp only [Option.some.injEq, Prod.mk.injEq] at h
          obtain ⟨hm, hr⟩ := h
          subst hr
          obtain ⟨he2, hl2⟩ := matchCI_spec _ rest m2 r2 h2
          subst hm
          constructor
          · simp [he1, he2]
          · right; simp [hl1, hl2, hs]
        | none =>
          rw [h2] at h
          cases h3 : matchCI [':', '/', '/'] (c :: rest) with
          | some x3 =>
            obtain ⟨m3, r3⟩ := x3
            rw [h3] at h
            simp only [Option.some.injEq, Prod.mk.injEq] at h
            obtain ⟨hm, hr⟩ := h
            subst hr
            obtain ⟨he3, hl3⟩ := matchCI_spec _ (c :: rest) m3 r3 h3
            subst hm
            constructor
            · simp [he1, he3]
            · left; simp [hl1, hl3]
          | none => rw [h3] at h; exact absurd h (by simp)
      · rw [if_neg hs] at h
        cases h3 : matchCI [':', '/', '/'] (c :: rest) with
        | some x3 =>
          obtain ⟨m3, r3⟩ := x3
          rw [h3] at h
          simp only [Option.some.injEq, Prod.mk.injEq] at h
          obtain ⟨hm, hr⟩ := h
          subst hr
          obtain ⟨he3, hl3⟩ := matchCI_spec _ (c :: rest) m3 r3 h3
          subst hm
          constructor
          · simp [he1, he3]
          · left; simp [hl1, hl3]
        | none => rw [h3] at h; exact absurd h (by simp)

theorem matchAt_spec : ∀ (alts : List (List Char)) (cs m r : List Char),
    matchAt alts cs = some (m, r) →
    cs = m ++ r ∧
      (['h', 't', 't', 'p', ':', '/', '/'] <+: m.map Char.toLower ∨
       ['h', 't', 't', 'p', 's', ':', '/', '/'] <+: m.map Char.toLower) ∧
      (∃ a ∈ alts, a <:+ m.map Char.toLower) := by
  intro alts cs m r h
  simp only [matchAt] at h
  cases h1 : matchScheme cs with
  | none => rw [h1] at h; exact absurd h (by simp)
  | some x1 =>
    obtain ⟨m1, r1⟩ := x1
    rw [h1] at h
    simp only at h
    cases h2 : matchTail alts r1 with
    | none => rw [h2] at h; exact absurd h (by simp)
    | some x2 =>
      obtain ⟨m2, r2⟩ := x2
      rw [h2] at h
      simp only [Option.some.injEq, Prod.mk.injEq] at h
      obtain ⟨hm, hr⟩ := h
      subst hr
      obtain ⟨he1, hsch⟩ := matchScheme_spec cs m1 r1 h1
      obtain ⟨he2, hne2, a, hmem, hsuf⟩ := matchTail_spec alts r1 m2 r2 h2
      subst hm
      refine ⟨by simp [he1, he2], ?_, a, hmem, ?_⟩
      · rcases hsch with hs | hs
        · left; rw [List.map_append, ← hs]; exact List.prefix_append _ _
        · right; rw [List.map_append, ← hs]; exact List.prefix_append _ _
      · rw [List.map_append]
        exact hsuf.trans (List.suffix_append _ _)

theorem reFindallF_sound : ∀ (alts : List (List Char)) (fuel : Nat) (cs : List Char)
    (u : String), u ∈ reFindallF alts fuel cs →
    ∃ m r cs₀, u = String.mk m ∧ matchAt alts cs₀ = some (m, r) ∧ cs₀ <:+ cs := by
  intro alts fuel
  induction fuel with
  | zero => intro cs u h; simp [reFindallF] at h
  | succ fuel ih =>
    intro cs u h
    simp only [reFindallF] at h
    cases hm : matchAt alts cs with
    | some x =>
      obtain ⟨m, r⟩ := x
      rw [hm] at h
      simp only [List.mem_cons] at h
      rcases h with h | h
      · exact ⟨m, r, cs, h, hm, List.suffix_refl cs⟩
      · obtain ⟨m0, r0, cs₀, hu, hmm, hsuf⟩ := ih r u h
        refine ⟨m0, r0, cs₀, hu, hmm, hsuf.trans ?_⟩
        obtain ⟨he, -, -⟩ := matchAt_spec alts cs m r hm
        rw [he]
        exact List.suffix_append m r
    | none =>
      rw [hm] at h
      cases cs with
      | nil => simp at h
      | cons c cs' =>
        obtain ⟨m0, r0, cs₀, hu, hmm, hsuf⟩ := ih cs' u h
        exact ⟨m0, r0, cs₀, hu, hmm, hsuf.trans (List.suffix_cons c cs')⟩

theorem reFindall_sound (alts : List (List Char)) (cs : List Char) (u : String)
    (h : u ∈ reFindall alts cs) :
    ∃ m r cs₀, u = String.mk m ∧ matchAt alts cs₀ = some (m, r) ∧ cs₀ <:+ cs :=
  reFindallF_sound alts cs.length cs u h

/-! ### Lemmas about `pyDedup` and `setAdd` -/

theorem mem_pyDedupAux : ∀ (xs : List String) (seen : List String) (x : String),
    x ∈ pyDedupAux seen xs ↔ x ∈ xs ∧ x ∉ seen := by
  intro xs
  induction xs with
  | nil => intro seen x; simp [pyDedupAux]
  | cons a xs ih =>
    intro seen x
    simp only [pyDedupAux]
    by_cases ha : a ∈ seen
    · rw [if_pos ha, ih]
      constructor
      · rintro ⟨h1, h2⟩; exact ⟨List.mem_cons_of_mem a h1, h2⟩
      · rintro ⟨h1, h2⟩
        rcases List.mem_cons.mp h1 with rfl | h1
        · exact absurd ha h2
        · exact ⟨h1, h2⟩
    · rw [if_neg ha]
      constructor
      · intro h
        rcases List.mem_cons.mp h with rfl | h
        · exact ⟨List.mem_cons_self x xs, ha⟩
        · obtain ⟨h1, h2⟩ := (ih (a :: seen) x).mp h
          exact ⟨List.mem_cons_of_mem a h1,
            fun hs => h2 (List.mem_cons_of_mem a hs)⟩
      · rintro ⟨h1, h2⟩
        rcases List.mem_cons.mp h1 with rfl | h1
        · exact List.mem_cons_self x _
        · by_cases hx : x = a
          · subst hx; exact List.mem_cons_self x _
          · refine List.mem_cons_of_mem a ((ih (a :: seen) x).mpr ⟨h1, ?_⟩)
            intro hs
            rcases List.mem_cons.mp hs with h | h
            · exact hx h
            · exact h2 h

theorem mem_pyDedup (xs : List String) (x : String) : x ∈ pyDedup xs ↔ x ∈ xs := by
  rw [pyDedup, mem_pyDedupAux]
  simp

theorem nodup_pyDedupAux : ∀ (xs seen : List String), (pyDedupAux seen xs).Nodup := by
  intro xs
  induction xs with
  | nil => intro seen; simp [pyDedupAux]
  | cons a xs ih =>
    intro seen
    simp only [pyDedupAux]
    by_cases ha : a ∈ seen
    · rw [if_pos ha]; exact ih seen
    · rw [if_neg ha]
      refine List.Nodup.cons ?_ (ih (a :: seen))
      intro hmem
      exact ((mem_pyDedupAux xs (a :: seen) a).mp hmem).2 (List.mem_cons_self a seen)

theorem nodup_pyDedup (xs : List String) : (pyDedup xs).Nodup :=
  nodup_pyDedupAux xs []

theorem mem_setAdd (s : List String) (a x : String) :
    x ∈ setAdd s a ↔ x ∈ s ∨ x = a := by
  simp only [setAdd]
  by_cases ha : a ∈ s
  · rw [if_pos ha]
    constructor
    · exact Or.inl
    · rintro (h | rfl)
      · exact h
      · exact ha
  · rw [if_neg ha]
    simp

theorem nodup_setAdd (s : List String) (a : String) (h : s.Nodup) :
    (setAdd s a).Nodup := by
  simp only [setAdd]
  by_cases ha : a ∈ s
  · rw [if_pos ha]; exact h
  · rw [if_neg ha]
    rw [List.nodup_append]
    refine ⟨h, List.nodup_singleton a, ?_⟩
    intro x hx hx1
    rw [List.mem_singleton] at hx1
    subst hx1
    exact ha hx

theorem mem_foldl_setAdd : ∀ (l init : List String) (x : String),
    x ∈ List.foldl setAdd init l ↔ x ∈ init ∨ x ∈ l := by
  intro l
  induction l with
  | nil => intro init x; simp
  | cons a l ih =>
    intro init x
    simp only [List.foldl_cons, ih, mem_setAdd, List.mem_cons]
    tauto

theorem nodup_foldl_setAdd : ∀ (l init : List String), init.Nodup →
    (List.foldl setAdd init l).Nodup := by
  intro l
  induction l with
  | nil => intro init h; simpa
  | cons a l ih =>
    intro init h
    exact ih (setAdd init a) (nodup_setAdd init a h)

/-! ### Shared characterisations of the strategy functions -/

theorem simple_http_extract_mem (fetch : String → FetchResult) (parse : String → Dom)
    (uj : String → String → String) (url : String) (status : Nat) (body : String)
    (hf : fetch url = FetchResult.ok status body) (u : String) :
    u ∈ simple_http_extract fetch parse uj url ↔
      u ∈ reFindall basicAlts body.toList ∨ u ∈ domAdds uj url (parse body) := by
  unfold simple_http_extract
  rw [hf]
  simp only [mem_foldl_setAdd, List.not_mem_nil, false_or]

theorem simple_http_extract_nodup (fetch : String → FetchResult) (parse : String → Dom)
    (uj : String → String → String) (url : String) :
    (simple_http_extract fetch parse uj url).Nodup := by
  unfold simple_http_extract
  cases fetch url with
  | exc => exact List.nodup_nil
  | ok status body =>
    exact nodup_foldl_setAdd _ _ (nodup_foldl_setAdd _ _ List.nodup_nil)

theorem ytLinks_unavailable (o : Oracles) (h : o.hasYt = false) : ytLinks o = [] := by
  unfold ytLinks yt_dlp_extract
  rw [h]
  rfl

theorem pwLinks_unavailable (o : Oracles) (url : String) (h : o.hasPw = false) :
    pwLinks o url = [] := by
  unfold pwLinks playwright_extract
  rw [h]
  rfl

theorem sseYt_eq_ytLinks (o : Oracles) : sseYt o = ytLinks o := by
  unfold sseYt
  cases h : o.hasYt with
  | false => rw [ytLinks_unavailable o h]; rfl
  | true => rfl

theorem ssePw_eq_pwLinks (o : Oracles) (url : String) : ssePw o url = pwLinks o url := by
  unfold ssePw
  cases h : o.hasPw with
  | false => rw [pwLinks_unavailable o url h]; rfl
  | true => rfl

example : reFindall fallbackAlts "x https://cdn.example.com/V.MP4 y".toList
    = ["https://cdn.example.com/V.MP4"] := by decide

example : reFindall fallbackAlts "https://a.example/v.webm".toList = [] := by decide

example : reFindall basicAlts "see https://a.b/x.M3U8?tok=1 now".toList
    = ["https://a.b/x.M3U8"] := by decide

example : ujTest "https://page.example/watch" "/dom.mp4" = "https://page.example/dom.mp4" := by decide

example : ujTest "https://page.example/watch" "https://cdn.example.com/a.mp4"
    = "https://cdn.example.com/a.mp4" := by decide

/-! ### Claim theorems -/

/-- C1: for every extraction run, the returned result's `method` equals
`"none"` if and only if its `links` list is empty; otherwise `method`
names the first strategy, in orchestration order (basic, yt_dlp,
playwright, fallback_regex), whose URL list is non-empty, `links` is
that list, and no later strategy is attempted after that first success
(the invocation trace stops at the winning strategy). -/
theorem claim_C1 (o : Oracles) (url : String) :
    ((extract_core o url).result.method = "none" ↔ (extract_core o url).result.links = []) ∧
    (extract_core o url).result.method =
      (if basicLinks o url ≠ [] then "basic"
       else if ytLinks o ≠ [] then "yt_dlp"
       else if pwLinks o url ≠ [] then "playwright"
       else if fallLinks o url ≠ [] then "fallback_regex"
       else "none") ∧
    (extract_core o url).result.links =
      (if basicLinks o url ≠ [] then basicLinks o url
       else if ytLinks o ≠ [] then ytLinks o
       else if pwLinks o url ≠ [] then pwLinks o url
       else if fallLinks o url ≠ [] then fallLinks o url
       else []) ∧
    (extract_core o url).tried =
      (if basicLinks o url ≠ [] then ["basic"]
       else if ytLinks o ≠ [] then ["basic", "yt_dlp"]
       else if pwLinks o url ≠ [] then ["basic", "yt_dlp", "playwright"]
       else ["basic", "yt_dlp", "playwright", "fallback_regex"]) := by
  unfold extract_core
  split_ifs with h1 h2 h3 h4
  · exact ⟨⟨fun hm => absurd hm (by simp), fun hl => absurd hl h1⟩, rfl, rfl, rfl⟩
  · exact ⟨⟨fun hm => absurd hm (by simp), fun hl => absurd hl h2⟩, rfl, rfl, rfl⟩
  · exact ⟨⟨fun hm => absurd hm (by simp), fun hl => absurd hl h3⟩, rfl, rfl, rfl⟩
  · exact ⟨⟨fun hm => absurd hm (by simp), fun hl => absurd hl h4⟩, rfl, rfl, rfl⟩
  · exact ⟨⟨fun _ => rfl, fun _ => rfl⟩, rfl, rfl, rfl⟩

/-- C10: assuming deterministic strategy functions (one shared oracle
bundle), the terminal result in the SSE endpoint's final `done` event
equals the result the synchronous `extract` endpoint returns for the
same URL: both run the same four strategies in the same order with the
same stop-on-success rule. -/
theorem claim_C10 (o : Oracles) (url : String) :
    extract_sse_result o url = (extract_core o url).result := by
  unfold extract_sse_result extract_core
  rw [sseYt_eq_ytLinks, ssePw_eq_pwLinks]
  split_ifs <;> rfl

/-- C2 counterexample: the claim says the static scanner returns an
empty list on a non-2xx HTTP status.  It does not: `requests.get` does
not raise on an error status and `simple_http_extract` never inspects
`r.status_code`, so a 404 body is scanned like a success and its URLs
are returned. -/
theorem claim_C2_counterexample :
    simple_http_extract (fun _ => FetchResult.ok 404 "https://cdn.example.com/err.mp4")
      (fun _ => ⟨[], none⟩) ujTest "https://page.example/watch"
      = ["https://cdn.example.com/err.mp4"] := by
  decide

/-- C2 (amended): the static scanner returns an empty list whenever the
fetch raises (timeout, connection error) and never raises to its
caller (it is a total function of the fetch outcome); a non-2xx status
does not yield an empty list - the error body is scanned like a
success. -/
theorem claim_C2 (fetch : String → FetchResult) (parse : String → Dom)
    (uj : String → String → String) (url : String)
    (h : fetch url = FetchResult.exc) :
    simple_http_extract fetch parse uj url = [] := by
  unfold simple_http_extract
  rw [h]

/-- C2 witness: the amended theorem applied to a concrete
always-raising fetch oracle. -/
theorem claim_C2_witness :
    (fun _ : String => FetchResult.exc) "https://unreachable.example/" = FetchResult.exc ∧
    simple_http_extract (fun _ => FetchResult.exc) (fun _ => ⟨[], none⟩) ujTest
      "https://unreachable.example/" = [] :=
  ⟨rfl, claim_C2 (fun _ => FetchResult.exc) (fun _ => ⟨[], none⟩) ujTest
    "https://unreachable.example/" rfl⟩

/-- C3: the claim (and the source's own comment
`# remove duplicates & relative`, line 74) says every strategy's URL
list is de-duplicated, but the `yt-dlp -g` branch returns the stdout
lines without de-duplication: when the delegate prints the same direct
URL twice (e.g. the same URL for video and audio), the returned list
contains it twice. -/
theorem claim_C3 :
    yt_dlp_extract true
      (ProcOutcome.ok 0 "https://a.example/v.mp4\nhttps://a.example/v.mp4\n")
      JBranch.noOutput
      = ["https://a.example/v.mp4", "https://a.example/v.mp4"] ∧
    ¬ (yt_dlp_extract true
        (ProcOutcome.ok 0 "https://a.example/v.mp4\nhttps://a.example/v.mp4\n")
        JBranch.noOutput).Nodup := by
  constructor
  · decide
  · decide

/-- C4 counterexample: the claim's configured extension set includes
`.mpd`, `.webm`, `.ts` and `blob:`, but the code's patterns recognise
only `.mp4` and `.m3u8`: a text consisting of an absolute HTTPS URL
ending in `.webm` produces no match at all. -/
theorem claim_C4_counterexample :
    fallback_regex "see https://cdn.example.com/v.webm here" "https://cdn.example.com/" = [] := by
  decide

/-- C4 (amended): the pattern matcher returns only absolute HTTP(S)
URLs whose matched extension is `.mp4` or `.m3u8` (the code's
configured set), case-insensitively on the whole match, preserving the
original casing (every returned URL is a verbatim substring of the
input), and its output contains no duplicate URL string. -/
theorem claim_C4 (html base u : String) (h : u ∈ fallback_regex html base) :
    (['h', 't', 't', 'p', ':', '/', '/'] <+: u.toList.map Char.toLower ∨
     ['h', 't', 't', 'p', 's', ':', '/', '/'] <+: u.toList.map Char.toLower) ∧
    (['.', 'm', 'p', '4'] <:+ u.toList.map Char.toLower ∨
     ['.', 'm', '3', 'u', '8'] <:+ u.toList.map Char.toLower) ∧
    u.toList <:+: html.toList ∧
    (fallback_regex html base).Nodup := by
  have hmem : u ∈ reFindall fallbackAlts html.toList := (mem_pyDedup _ u).mp h
  obtain ⟨m, r, cs₀, hu, hmm, hsuf⟩ := reFindall_sound fallbackAlts html.toList u hmem
  obtain ⟨he, hpre, a, hmema, hsufa⟩ := matchAt_spec fallbackAlts cs₀ m r hmm
  subst hu
  have hlist : (String.mk m).toList = m := rfl
  refine ⟨?_, ?_, ?_, nodup_pyDedup _⟩
  · rw [hlist]; exact hpre
  · rw [hlist]
    have : a = ['.', 'm', 'p', '4'] ∨ a = ['.', 'm', '3', 'u', '8'] := by
      simpa [fallbackAlts] using hmema
    rcases this with rfl | rfl
    · exact Or.inl hsufa
    · exact Or.inr hsufa
  · rw [hlist]
    have hm : m <+: cs₀ := he ▸ List.prefix_append m r
    exact hm.isInfix.trans hsuf.isInfix

/-- C4 witness: the amended theorem applied to a concrete input whose
single match is an uppercase-extension URL. -/
theorem claim_C4_witness :
    "https://cdn.example.com/V.MP4" ∈
      fallback_regex "x https://cdn.example.com/V.MP4 y" "https://page.example/" ∧
    (['.', 'm', 'p', '4'] <:+ "https://cdn.example.com/V.MP4".toList.map Char.toLower ∨
     ['.', 'm', '3', 'u', '8'] <:+ "https://cdn.example.com/V.MP4".toList.map Char.toLower) ∧
    (fallback_regex "x https://cdn.example.com/V.MP4 y" "https://page.example/").Nodup :=
  ⟨by decide,
   (claim_C4 "x https://cdn.example.com/V.MP4 y" "https://page.example/"
     "https://cdn.example.com/V.MP4" (by decide)).2.1,
   (claim_C4 "x https://cdn.example.com/V.MP4 y" "https://page.example/"
     "https://cdn.example.com/V.MP4" (by decide)).2.2.2⟩

/-- C5 counterexample: the claim orders the static scanner's output
DOM-extracted URLs first, then regex matches.  The code accumulates
everything in one unordered `set` (regex matches inserted first, DOM
additions second) and returns `list(links)` with no ordering step: in
the set model the regex match comes out FIRST, and in CPython the
iteration order is hash-dependent - in neither case is a DOM-first
order produced. -/
theorem claim_C5_counterexample :
    simple_http_extract fetchC5 parseC5 ujTest "https://page.example/watch"
      = ["https://cdn.example.com/reg.mp4", "https://page.example/dom.mp4"] := by
  decide

/-- C5 (amended): for every successfully fetched page, the static
scanner's output is the de-duplicated union of the raw-HTML regex
matches and the DOM-derived URLs, with no guaranteed ordering between
the two groups (the code stores both in one unordered `set`). -/
theorem claim_C5 (fetch : String → FetchResult) (parse : String → Dom)
    (uj : String → String → String) (url : String) (status : Nat) (body : String)
    (h : fetch url = FetchResult.ok status body) :
    (∀ u, u ∈ simple_http_extract fetch parse uj url ↔
      u ∈ reFindall basicAlts body.toList ∨ u ∈ domAdds uj url (parse body)) ∧
    (simple_http_extract fetch parse uj url).Nodup :=
  ⟨fun u => simple_http_extract_mem fetch parse uj url status body h u,
   simple_http_extract_nodup fetch parse uj url⟩

/-- C5 witness: the amended theorem applied to the concrete C5 page. -/
theorem claim_C5_witness :
    fetchC5 "https://page.example/watch" = FetchResult.ok 200 bodyC5 ∧
    ("https://page.example/dom.mp4" ∈
        simple_http_extract fetchC5 parseC5 ujTest "https://page.example/watch" ↔
      "https://page.example/dom.mp4" ∈ reFindall basicAlts bodyC5.toList ∨
      "https://page.example/dom.mp4" ∈
        domAdds ujTest "https://page.example/watch" (parseC5 bodyC5)) ∧
    (simple_http_extract fetchC5 parseC5 ujTest "https://page.example/watch").Nodup :=
  ⟨rfl,
   (claim_C5 fetchC5 parseC5 ujTest "https://page.example/watch" 200 bodyC5 rfl).1 _,
   (claim_C5 fetchC5 parseC5 ujTest "https://page.example/watch" 200 bodyC5 rfl).2⟩

/-- C6 counterexample: the claim says the `og:video` meta content is
resolved against the base URL before being returned.  Line 60 adds
`og["content"]` verbatim: a root-relative `og:video` content appears
unresolved in the output (the `urljoin` collaborator is never applied
to it). -/
theorem claim_C6_counterexample :
    simple_http_extract fetchC6 parseC6 ujTest "https://page.example/watch"
      = ["/og-video.mp4"] := by
  decide

/-- C6 (amended): every URL in the static scanner's output is either a
raw-HTML regex match (absolute by construction), or a `<video>`/
`<source>` `src` attribute passed through `urljoin` against the page
URL, or the `og:video` meta content taken verbatim - i.e. `src`
attributes are resolved, but `og:video` content is not. -/
theorem claim_C6 (fetch : String → FetchResult) (parse : String → Dom)
    (uj : String → String → String) (url : String) (status : Nat) (body : String)
    (h : fetch url = FetchResult.ok status body) (u : String)
    (hm : u ∈ simple_http_extract fetch parse uj url) :
    u ∈ reFindall basicAlts body.toList ∨
    (∃ s ∈ srcValues (parse body), u = uj url s) ∨
    (parse body).ogVideo = some u := by
  rcases (simple_http_extract_mem fetch parse uj url status body h u).mp hm with h1 | h2
  · exact Or.inl h1
  · unfold domAdds at h2
    rcases List.mem_append.mp h2 with h3 | h4
    · obtain ⟨s, hs, hequ⟩ := List.mem_map.mp h3
      exact Or.inr (Or.inl ⟨s, hs, hequ.symm⟩)
    · right; right
      unfold ogValues at h4
      cases hog : (parse body).ogVideo with
      | none => rw [hog] at h4; simp at h4
      | some c =>
        rw [hog] at h4
        simp only at h4
        by_cases hc : c ≠ ""
        · rw [if_pos hc] at h4
          rw [List.mem_singleton.mp h4]
        · rw [if_neg hc] at h4
          simp at h4

/-- C6 witness: the amended theorem applied to the concrete C6 page,
where the output URL is the verbatim `og:video` content. -/
theorem claim_C6_witness :
    fetchC6 "https://page.example/watch" = FetchResult.ok 200 bodyC6 ∧
    "/og-video.mp4" ∈ simple_http_extract fetchC6 parseC6 ujTest "https://page.example/watch" ∧
    ("/og-video.mp4" ∈ reFindall basicAlts bodyC6.toList ∨
     (∃ s ∈ srcValues (parseC6 bodyC6), "/og-video.mp4" = ujTest "https://page.example/watch" s) ∨
     (parseC6 bodyC6).ogVideo = some "/og-video.mp4") :=
  ⟨rfl, by decide,
   claim_C6 fetchC6 parseC6 ujTest "https://page.example/watch" 200 bodyC6 rfl
     "/og-video.mp4" (by decide)⟩

/-- C7 counterexample: the claim orders the browser-capture output with
playlist-manifest URLs (`.m3u8`) before progressive files (`.mp4`).
The code applies no such preference: `collected` is an unordered `set`
and the normalisation of lines 357-367 keeps the collection order (in
the set model) - a `.mp4` observed before a `.m3u8` stays first. -/
theorem claim_C7_counterexample :
    playwright_extract true ujTest "https://page.example/watch"
      ["https://cdn.example.com/v.mp4", "https://cdn.example.com/i.m3u8"]
      = ["https://cdn.example.com/v.mp4", "https://cdn.example.com/i.m3u8"] := by
  decide

/-- C7 (amended): the browser-capture output is the de-duplicated,
`urljoin`-normalised collection in collected order (empty when
Playwright is unavailable), with no manifest-before-progressive
reordering; it contains no duplicate URL string. -/
theorem claim_C7 (hasPw : Bool) (uj : String → String → String) (url : String)
    (collected : List String) :
    (playwright_extract hasPw uj url collected).Nodup ∧
    (∀ u, u ∈ playwright_extract hasPw uj url collected ↔
      hasPw = true ∧ ∃ c, c ∈ collected ∧ c ≠ "" ∧ u = uj url c) := by
  cases hasPw with
  | false =>
    have hpe : playwright_extract false uj url collected = [] := rfl
    rw [hpe]
    constructor
    · exact List.nodup_nil
    · intro u; simp
  | true =>
    have hpe : playwright_extract true uj url collected
        = pyDedup ((collected.filter (fun u => u ≠ "")).map (uj url)) := rfl
    rw [hpe]
    constructor
    · exact nodup_pyDedup _
    · intro u
      rw [mem_pyDedup]
      constructor
      · intro hmem
        obtain ⟨c, hcf, hequ⟩ := List.mem_map.mp hmem
        obtain ⟨hc, hne⟩ := List.mem_filter.mp hcf
        refine ⟨rfl, c, hc, ?_, hequ.symm⟩
        simpa using hne
      · rintro ⟨-, c, hc, hne, hequ⟩
        subst hequ
        exact List.mem_map.mpr ⟨c, List.mem_filter.mpr ⟨hc, by simpa using hne⟩, rfl⟩

/-- C8 counterexample: the claim says that with `exhaustive=true` the
result unions the static scan's and the browser capture's URLs.  The
`extract` endpoint reads only `data.get("url")` (line 386) - no
`exhaustive` option exists - so even with `exhaustive=true` in the
request and the browser session holding a second distinct URL, the
response stops at the static scan and carries only its single link. -/
theorem claim_C8_counterexample :
    extract_endpoint oE ⟨some "https://page.example/watch", true⟩ =
      ExtractResponse.ok ⟨"basic", ["https://cdn.example.com/a.mp4"],
        ["https://cdn.example.com/a.mp4"], [], [], []⟩ ∧
    pwLinks oE "https://page.example/watch" = ["https://cdn.example.com/b.m3u8"] := by
  constructor
  · decide
  · decide

/-- C8 (amended): the `extract` endpoint recognises no `exhaustive`
option - its response is identical whatever that request member says -
and whenever the static scan finds links the run stops there: the
result's links are exactly the static scan's and the browser capture is
never attempted. -/
theorem claim_C8 (o : Oracles) (u : Option String) (e1 e2 : Bool) (url : String)
    (h : basicLinks o url ≠ []) :
    extract_endpoint o ⟨u, e1⟩ = extract_endpoint o ⟨u, e2⟩ ∧
    (extract_core o url).result.links = basicLinks o url ∧
    (extract_core o url).tried = ["basic"] := by
  refine ⟨rfl, ?_, ?_⟩
  · unfold extract_core
    rw [if_pos h]
  · unfold extract_core
    rw [if_pos h]

/-- C8 witness: the amended theorem applied to the concrete C8
oracles. -/
theorem claim_C8_witness :
    basicLinks oE "https://page.example/watch" ≠ [] ∧
    extract_endpoint oE ⟨some "https://page.example/watch", true⟩ =
      extract_endpoint oE ⟨some "https://page.example/watch", false⟩ ∧
    (extract_core oE "https://page.example/watch").result.links =
      basicLinks oE "https://page.example/watch" ∧
    (extract_core oE "https://page.example/watch").tried = ["basic"] :=
  ⟨by decide,
   claim_C8 oE (some "https://page.example/watch") true false
     "https://page.example/watch" (by decide)⟩

/-- C9 counterexample: in the unreachable-target scenario the whole
response is exactly `method="none"`, `links=[]` and four attempt
entries that are bare empty URL lists; the attempts dict maps strategy
names to URL lists only, so the static and fallback_regex records
cannot "additionally carry an error note" as the claim says - no
error-note field exists anywhere in the result. -/
theorem claim_C9_counterexample :
    extract_core oD "https://unreachable.example/" =
      ⟨⟨"none", [], [], [], [], []⟩,
       ["basic", "yt_dlp", "playwright", "fallback_regex"]⟩ := by
  decide

/-- C9 (amended): when the target fetch raises and the delegate and
browser steps find nothing, the result has method `"none"`, empty
links, and four attempt entries each an empty URL list (all four
strategies were tried); the code records no error notes - attempts
carry bare URL lists only. -/
theorem claim_C9 (o : Oracles) (url : String) (hb : o.fetch url = FetchResult.exc)
    (hy : ytLinks o = []) (hp : pwLinks o url = []) :
    (extract_core o url).result = ⟨"none", [], [], [], [], []⟩ ∧
    (extract_core o url).tried = ["basic", "yt_dlp", "playwright", "fallback_regex"] := by
  have hbasic : basicLinks o url = [] := by
    unfold basicLinks simple_http_extract
    rw [hb]
  have hfall : fallLinks o url = [] := by
    unfold fallLinks
    rw [hb]
  unfold extract_core
  rw [hbasic, hy, hp, hfall]
  simp

/-- C9 witness: the amended theorem applied to the concrete C9
oracles. -/
theorem claim_C9_witness :
    oD.fetch "https://unreachable.example/" = FetchResult.exc ∧
    ytLinks oD = [] ∧
    pwLinks oD "https://unreachable.example/" = [] ∧
    (extract_core oD "https://unreachable.example/").result = ⟨"none", [], [], [], [], []⟩ ∧
    (extract_core oD "https://unreachable.example/").tried =
      ["basic", "yt_dlp", "playwright", "fallback_regex"] :=
  ⟨rfl, rfl, rfl, claim_C9 oD "https://unreachable.example/" rfl rfl rfl⟩
